import Mathlib

/-!
Verification development for the Lead App backend
(`lead_app_backend/lead_app_server.py`).

The SQLite tables are embedded as Lean structures whose rows live in
lists; SQL queries become list filters / joins; the ISO date strings the
code compares for equality are kept as `String`, and session timestamps
(compared with `<` after `fromisoformat`) are modelled as `Nat` instants.
`ORDER BY RANDOM()` is modelled by an explicit `shuffle` parameter that is
assumed (in each theorem) to permute its input, and `pbkdf2_hmac` is
modelled by an abstract key-derivation parameter `kdf` producing byte
lists; bytes are `Nat` with explicit `< 256` bounds where they matter.
-/

namespace LeadApp

/-- Row of the `user` table (fields relevant to the verified core). -/
structure UserRow where
  id : Nat
  name : String
  email : String
  password_hash : String
  country_preferences : String
  category_preferences : String
  deriving DecidableEq

/-- Row of the `session` table.  `expires_at` is the absolute expiry instant
(the code stores an ISO string and compares it with `<` after parsing). -/
structure SessionRow where
  token : String
  user_id : Nat
  expires_at : Nat
  deriving DecidableEq

/-- Row of the `category` table. -/
structure CategoryRow where
  id : Nat
  name : String
  deriving DecidableEq

/-- Row of the `company` table. -/
structure CompanyRow where
  id : Nat
  name : String
  category_id : Nat
  overview : String
  website_url : String
  country : String
  deriving DecidableEq

/-- Row of the `lead` table. -/
structure LeadRow where
  id : Nat
  full_name : String
  email : String
  phone : String
  country : String
  company_id : Nat
  deriving DecidableEq

/-- Row of the `user_lead_status` table (the lead-ownership ledger). -/
structure UserLeadStatusRow where
  user_id : Nat
  lead_id : Nat
  delivery_date : String
  status : Option String
  next_action_date : Option String
  notes : Option String
  deriving DecidableEq

/-- The whole SQLite database state. -/
structure DB where
  users : List UserRow
  sessions : List SessionRow
  categories : List CategoryRow
  companies : List CompanyRow
  leads : List LeadRow
  uls : List UserLeadStatusRow
  deriving DecidableEq

/-- Primary-key well-formedness: the `id` columns of `lead`, `company` and
`category` are SQLite `INTEGER PRIMARY KEY` columns, hence pairwise
distinct. -/
def DB.WF (db : DB) : Prop :=
  (db.leads.map (·.id)).Nodup ∧ (db.companies.map (·.id)).Nodup ∧
    (db.categories.map (·.id)).Nodup

instance (db : DB) : Decidable db.WF := by
  unfold DB.WF; infer_instance

/-- One row of the three-way `lead JOIN company JOIN category` used by the
allocation queries. -/
structure JoinRow where
  lead : LeadRow
  company : CompanyRow
  category : CategoryRow
  deriving DecidableEq

/-- The view of a delivered lead returned to the client (the SELECT list of
both allocation queries). -/
structure LeadView where
  lead_id : Nat
  full_name : String
  email : String
  phone : String
  country : String
  company : String
  category : String
  company_overview : String
  company_website : String
  deriving DecidableEq

/-- Build the client view from one joined row. -/
def mkView (r : JoinRow) : LeadView :=
  { lead_id := r.lead.id
    full_name := r.lead.full_name
    email := r.lead.email
    phone := r.lead.phone
    country := r.lead.country
    company := r.company.name
    category := r.category.name
    company_overview := r.company.overview
    company_website := r.company.website_url }

/-- `JOIN company ON lead.company_id = company.id JOIN category ON
company.category_id = category.id` for a single lead row (SQL inner-join
semantics: one output row per matching pair). -/
def joinLead (companies : List CompanyRow) (categories : List CategoryRow)
    (l : LeadRow) : List JoinRow :=
  (companies.filter (fun co => decide (co.id = l.company_id))).flatMap fun co =>
    (categories.filter (fun cat => decide (cat.id = co.category_id))).map fun cat =>
      ⟨l, co, cat⟩

/-- The full `lead JOIN company JOIN category` relation of the database. -/
def leadJoin (db : DB) : List JoinRow :=
  db.leads.flatMap (joinLead db.companies db.categories)

/-- `SELECT lead_id FROM user_lead_status WHERE user_id = ?` — every lead id
ever assigned to the user (lifetime, not just today). -/
def assignedLeadIds (db : DB) (uid : Nat) : List Nat :=
  (db.uls.filter (fun r => decide (r.user_id = uid))).map (·.lead_id)

/-- The per-record part of the first query of `deliver_daily_leads`: join
one ownership record with its lead / company / category details. -/
def recView (db : DB) (r : UserLeadStatusRow) : List LeadView :=
  ((db.leads.filter (fun l => decide (l.id = r.lead_id))).flatMap
    (joinLead db.companies db.categories)).map mkView

/-- The first query of `deliver_daily_leads`: today's ownership records for
the user, joined with lead / company / category details. -/
def todaysDelivered (db : DB) (uid : Nat) (today : String) : List LeadView :=
  (db.uls.filter (fun r => decide (r.user_id = uid ∧ r.delivery_date = today))).flatMap
    (recView db)

/-- Python `str.split(",")`: cut the character list at every comma; the
empty string yields one empty token. -/
def splitOnComma : List Char → List (List Char)
  | [] => [[]]
  | c :: rest =>
    match splitOnComma rest with
    | [] => [[c]]
    | t :: ts => if c = ',' then [] :: t :: ts else (c :: t) :: ts

/-- ASCII whitespace as stripped by Python `str.strip()`. -/
def isPySpace (c : Char) : Bool :=
  c = ' ' ∨ c = '\t' ∨ c = '\n' ∨ c = '\r' ∨ c = '\x0b' ∨ c = '\x0c'

/-- Python `str.strip()`: drop whitespace from both ends. -/
def pstrip (cs : List Char) : List Char :=
  ((cs.dropWhile isPySpace).reverse.dropWhile isPySpace).reverse

/-- Digits-only numeral parsing, the core of Python `int` on a stripped
token (no sign). -/
def digitsToNat (cs : List Char) : Option Nat :=
  if cs = [] then none
  else if cs.all (·.isDigit) then
    some (cs.foldl (fun a c => a * 10 + (c.toNat - 48)) 0)
  else none

/-- Python `int(token)` on an already-stripped token: optional sign followed
by decimal digits; anything else raises `ValueError` (here: `none`). -/
def pyInt (cs : List Char) : Option Int :=
  match cs with
  | '+' :: rest => (digitsToNat rest).map Int.ofNat
  | '-' :: rest => (digitsToNat rest).map (fun n => -(n : Int))
  | ds => (digitsToNat ds).map Int.ofNat

/-- Decode the stored comma-separated country-preference string: split on
commas, strip each token, drop empty tokens. -/
def parseCountries (s : String) : List String :=
  (((splitOnComma s.data).map pstrip).filter (fun t => decide (t ≠ []))).map
    fun t => ⟨t⟩

/-- Decode the stored comma-separated category-preference string: split on
commas, strip each token, skip empty tokens, and silently drop tokens that
do not parse as integers (the `try / except ValueError: pass` of the
source). -/
def parseCategories (s : String) : List Int :=
  ((splitOnComma s.data).map pstrip).filterMap fun t =>
    if t = [] then none else pyInt t

/-- `get_user_preferences`: look the user row up by id (`fetchone`); a
missing row decodes as `("", "")`, i.e. wildcard preferences. -/
def get_user_preferences (db : DB) (uid : Nat) : List String × List Int :=
  let (countries_str, categories_str) :=
    match db.users.find? (fun u => decide (u.id = uid)) with
    | some u => (u.country_preferences, u.category_preferences)
    | none => ("", "")
  (parseCountries countries_str, parseCategories categories_str)

/-- The eligible-lead query of `deliver_daily_leads`: joined leads not
already assigned to the user, country-filtered only when `countries` is
non-empty and category-filtered only when `catIds` is non-empty (the SQL
text adds each `IN` clause conditionally). -/
def eligiblePool (db : DB) (uid : Nat) (countries : List String)
    (catIds : List Int) : List JoinRow :=
  (leadJoin db).filter fun r =>
    decide (r.lead.id ∉ assignedLeadIds db uid ∧
      (countries = [] ∨ r.lead.country ∈ countries) ∧
      (catIds = [] ∨ (r.category.id : Int) ∈ catIds))

/-- `ORDER BY RANDOM() LIMIT 7` over the eligible pool: a shuffle of the
pool, truncated to 7. -/
def freshBatch (shuffle : List JoinRow → List JoinRow) (db : DB) (uid : Nat) :
    List JoinRow :=
  (shuffle (eligiblePool db uid (get_user_preferences db uid).1
    (get_user_preferences db uid).2)).take 7

/-- The ownership record inserted for one selected lead:
`INSERT INTO user_lead_status (user_id, lead_id, delivery_date, status)
VALUES (?, ?, ?, NULL)`. -/
def mkRecord (uid : Nat) (today : String) (r : JoinRow) : UserLeadStatusRow :=
  { user_id := uid
    lead_id := r.lead.id
    delivery_date := today
    status := none
    next_action_date := none
    notes := none }

/-- `deliver_daily_leads(user_id)`: return today's batch if it exists,
otherwise select a fresh batch under the preference filters and insert the
ownership records.  `today` is the canonical current date
(`datetime.date.today().isoformat()`), passed explicitly. -/
def deliver_daily_leads (shuffle : List JoinRow → List JoinRow) (db : DB)
    (uid : Nat) (today : String) : List LeadView × DB :=
  let delivered := todaysDelivered db uid today
  if delivered.isEmpty then
    let sel := freshBatch shuffle db uid
    (sel.map mkView, { db with uls := db.uls ++ sel.map (mkRecord uid today) })
  else
    (delivered, db)

/-- `get_user_id_by_session(token)` at instant `now`: look the token up;
if absent return `none`; if the stored expiry is strictly before `now`,
delete the record (lazy expiry) and return `none`; otherwise return the
owning user id.  Returns the possibly-updated database alongside. -/
def get_user_id_by_session (db : DB) (token : String) (now : Nat) :
    Option Nat × DB :=
  match db.sessions.find? (fun s => decide (s.token = token)) with
  | none => (none, db)
  | some s =>
    if s.expires_at < now then
      (none, { db with
        sessions := db.sessions.filter (fun r => decide (¬ r.token = token)) })
    else
      (some s.user_id, db)

/-- `handle_lead_status_update` core: `UPDATE user_lead_status SET status =
?, next_action_date = ? WHERE user_id = ? AND lead_id = ?`; reports `false`
(HTTP 404) when no row matched. -/
def update_lead_status (db : DB) (uid lid : Nat) (status : String)
    (nad : Option String) : DB × Bool :=
  if (db.uls.filter fun r => decide (r.user_id = uid ∧ r.lead_id = lid)).isEmpty then
    (db, false)
  else
    ({ db with uls := db.uls.map fun r =>
        if r.user_id = uid ∧ r.lead_id = lid then
          { r with status := some status, next_action_date := nad }
        else r }, true)

/-- The new notes value written by `handle_add_note`: the existing notes
(`NULL` reads as "") followed by one timestamped entry. -/
def appendedNotes (notes : Option String) (timestamp content : String) : String :=
  notes.getD "" ++ "[" ++ timestamp ++ "] " ++ content ++ "\n"

/-- `handle_add_note` core: read the existing notes of the `(user, lead)`
record (`fetchone`), append one timestamped entry, and write the result back
to every matching row; reports `false` (HTTP 404) when the row is absent. -/
def append_note (db : DB) (uid lid : Nat) (content timestamp : String) :
    DB × Bool :=
  match db.uls.find? fun r => decide (r.user_id = uid ∧ r.lead_id = lid) with
  | none => (db, false)
  | some row =>
    ({ db with uls := db.uls.map fun r =>
        if r.user_id = uid ∧ r.lead_id = lid then
          { r with notes := some (appendedNotes row.notes timestamp content) }
        else r }, true)

/-- The ledger invariant: no lead id appears in two different ownership
records of the same user. -/
def LedgerInv (db : DB) : Prop :=
  db.uls.Pairwise fun r s => r.user_id = s.user_id → r.lead_id ≠ s.lead_id

instance (db : DB) : Decidable (LedgerInv db) := by
  unfold LedgerInv; infer_instance

end LeadApp

namespace LeadApp

/-! ### Basic lemmas about the join and the eligible pool -/

theorem mem_joinLead {companies : List CompanyRow} {categories : List CategoryRow}
    {l : LeadRow} {r : JoinRow} :
    r ∈ joinLead companies categories l ↔
      r.lead = l ∧ r.company ∈ companies ∧ r.company.id = l.company_id ∧
        r.category ∈ categories ∧ r.category.id = r.company.category_id := by
  cases r with
  | mk rl rco rcat =>
    simp only [joinLead, List.mem_flatMap, List.mem_map, List.mem_filter,
      decide_eq_true_eq, JoinRow.mk.injEq]
    constructor
    · rintro ⟨co, ⟨hco, hcoid⟩, cat, ⟨hcat, hcatid⟩, hl, hc, hk⟩
      subst hl; subst hc; subst hk
      exact ⟨rfl, hco, hcoid, hcat, hcatid⟩
    · rintro ⟨rfl, hco, hcoid, hcat, hcatid⟩
      exact ⟨rco, ⟨hco, hcoid⟩, rcat, ⟨hcat, hcatid⟩, rfl, rfl, rfl⟩

theorem mem_leadJoin {db : DB} {r : JoinRow} :
    r ∈ leadJoin db ↔
      r.lead ∈ db.leads ∧ r.company ∈ db.companies ∧
        r.company.id = r.lead.company_id ∧ r.category ∈ db.categories ∧
        r.category.id = r.company.category_id := by
  simp only [leadJoin, List.mem_flatMap]
  constructor
  · rintro ⟨l, hl, hr⟩
    rcases mem_joinLead.mp hr with ⟨hrl, h⟩
    subst hrl
    exact ⟨hl, h⟩
  · rintro ⟨hl, h⟩
    exact ⟨r.lead, hl, mem_joinLead.mpr ⟨rfl, h⟩⟩

theorem mem_eligiblePool {db : DB} {uid : Nat} {countries : List String}
    {catIds : List Int} {r : JoinRow} :
    r ∈ eligiblePool db uid countries catIds ↔
      r ∈ leadJoin db ∧ r.lead.id ∉ assignedLeadIds db uid ∧
        (countries = [] ∨ r.lead.country ∈ countries) ∧
        (catIds = [] ∨ (r.category.id : Int) ∈ catIds) := by
  simp [eligiblePool, List.mem_filter, and_assoc]

theorem mem_freshBatch {shuffle : List JoinRow → List JoinRow}
    (hs : ∀ l, (shuffle l).Perm l) {db : DB} {uid : Nat} {r : JoinRow}
    (hr : r ∈ freshBatch shuffle db uid) :
    r ∈ eligiblePool db uid (get_user_preferences db uid).1
        (get_user_preferences db uid).2 := by
  unfold freshBatch at hr
  exact (hs _).mem_iff.mp (List.mem_of_mem_take hr)

/-- Appending nothing to the ledger leaves the database unchanged. -/
theorem db_append_nil (db : DB) : { db with uls := db.uls ++ [] } = db := by
  simp

/-- On a first-of-day call `deliver_daily_leads` returns the fresh
selection. -/
theorem deliver_fst {shuffle : List JoinRow → List JoinRow} {db : DB}
    {uid : Nat} {today : String} (hfirst : todaysDelivered db uid today = []) :
    (deliver_daily_leads shuffle db uid today).1 =
      (freshBatch shuffle db uid).map mkView := by
  unfold deliver_daily_leads
  simp [hfirst]

/-- On a first-of-day call `deliver_daily_leads` appends exactly the fresh
selection's ownership records. -/
theorem deliver_snd {shuffle : List JoinRow → List JoinRow} {db : DB}
    {uid : Nat} {today : String} (hfirst : todaysDelivered db uid today = []) :
    (deliver_daily_leads shuffle db uid today).2 =
      { db with uls := db.uls ++ (freshBatch shuffle db uid).map (mkRecord uid today) } := by
  unfold deliver_daily_leads
  simp [hfirst]

/-- **C3** — Preference filtering is conjunctive and sound: on the batch
creation (first-of-day) path, the delivered views are exactly the fresh
selection, and every selected row honours the country filter when the
decoded country-preference list is non-empty and the category filter when
the decoded category-preference list is non-empty. -/
theorem preference_filter_sound (shuffle : List JoinRow → List JoinRow)
    (hs : ∀ l, (shuffle l).Perm l) (db : DB) (uid : Nat) (today : String)
    (hfirst : todaysDelivered db uid today = []) :
    (deliver_daily_leads shuffle db uid today).1 =
        (freshBatch shuffle db uid).map mkView ∧
      ∀ r ∈ freshBatch shuffle db uid,
        ((get_user_preferences db uid).1 ≠ [] →
          r.lead.country ∈ (get_user_preferences db uid).1) ∧
        ((get_user_preferences db uid).2 ≠ [] →
          (r.category.id : Int) ∈ (get_user_preferences db uid).2) := by
  refine ⟨deliver_fst hfirst, ?_⟩
  intro r hr
  rcases mem_eligiblePool.mp (mem_freshBatch hs hr) with ⟨-, -, hcountry, hcat⟩
  constructor
  · intro hne
    rcases hcountry with h | h
    · exact absurd h hne
    · exact h
  · intro hne
    rcases hcat with h | h
    · exact absurd h hne
    · exact h

/-- **C4** — Batch size bound: a first-of-day delivery returns at most 7
leads and at most as many as there are eligible leads; an empty eligible
pool yields the empty batch and leaves the database unchanged (no error). -/
theorem batch_size_bounded (shuffle : List JoinRow → List JoinRow)
    (hs : ∀ l, (shuffle l).Perm l) (db : DB) (uid : Nat) (today : String)
    (hfirst : todaysDelivered db uid today = []) :
    (deliver_daily_leads shuffle db uid today).1.length ≤ 7 ∧
      (deliver_daily_leads shuffle db uid today).1.length ≤
        (eligiblePool db uid (get_user_preferences db uid).1
          (get_user_preferences db uid).2).length ∧
      (eligiblePool db uid (get_user_preferences db uid).1
          (get_user_preferences db uid).2 = [] →
        (deliver_daily_leads shuffle db uid today).1 = [] ∧
          (deliver_daily_leads shuffle db uid today).2 = db) := by
  have h7 : (freshBatch shuffle db uid).length ≤ 7 := by
    unfold freshBatch
    exact List.length_take_le 7 _
  have hle : (freshBatch shuffle db uid).length ≤
      (eligiblePool db uid (get_user_preferences db uid).1
        (get_user_preferences db uid).2).length := by
    unfold freshBatch
    calc (List.take 7 (shuffle _)).length ≤ (shuffle _).length :=
          List.length_take_le' 7 _
      _ = _ := (hs _).length_eq
  refine ⟨?_, ?_, ?_⟩
  · rw [deliver_fst hfirst, List.length_map]
    exact h7
  · rw [deliver_fst hfirst, List.length_map]
    exact hle
  · intro hpool
    have hnil : freshBatch shuffle db uid = [] := by
      unfold freshBatch
      rw [hpool, (hs []).eq_nil]
      rfl
    constructor
    · rw [deliver_fst hfirst, hnil]
      rfl
    · rw [deliver_snd hfirst, hnil]
      simp

/-- **C10** — A user id with no user row resolves to wildcard preferences,
so a first-of-day delivery for it draws from the entire unassigned pool
(at most 7 leads) and records ownership under that user id. -/
theorem unknown_user_wildcard_delivery (shuffle : List JoinRow → List JoinRow)
    (hs : ∀ l, (shuffle l).Perm l) (db : DB) (uid : Nat) (today : String)
    (hnouser : db.users.find? (fun u => decide (u.id = uid)) = none)
    (hfirst : todaysDelivered db uid today = []) :
    get_user_preferences db uid = ([], []) ∧
      eligiblePool db uid [] [] =
        (leadJoin db).filter (fun r => decide (r.lead.id ∉ assignedLeadIds db uid)) ∧
      (deliver_daily_leads shuffle db uid today).1 =
        ((shuffle (eligiblePool db uid [] [])).take 7).map mkView ∧
      (deliver_daily_leads shuffle db uid today).2.uls =
        db.uls ++ ((shuffle (eligiblePool db uid [] [])).take 7).map (mkRecord uid today) ∧
      (deliver_daily_leads shuffle db uid today).1.length ≤ 7 := by
  have hpref : get_user_preferences db uid = ([], []) := by
    unfold get_user_preferences
    rw [hnouser]
    decide
  have hfresh : freshBatch shuffle db uid =
      (shuffle (eligiblePool db uid [] [])).take 7 := by
    unfold freshBatch
    rw [hpref]
  refine ⟨hpref, ?_, ?_, ?_, ?_⟩
  · unfold eligiblePool
    exact List.filter_congr (by intro r hr; simp)
  · rw [deliver_fst hfirst, hfresh]
  · rw [deliver_snd hfirst, hfresh]
  · rw [deliver_fst hfirst, List.length_map, hfresh]
    exact List.length_take_le 7 _

end LeadApp

namespace LeadApp

/-! ### Session resolution (claim C5) -/

/-- **C5 (amended)** — Session expiry boundary as implemented: with a
session record present, resolution succeeds whenever `now ≤ expiry`
(the code expires only on `expiry < now`); when `expiry < now` the record
is deleted and resolution fails, and every subsequent resolution of the
same token fails because the record is absent. -/
theorem session_resolution_boundary (db : DB) (token : String) (now : Nat)
    (s : SessionRow)
    (hfind : db.sessions.find? (fun r => decide (r.token = token)) = some s) :
    (now ≤ s.expires_at →
      get_user_id_by_session db token now = (some s.user_id, db)) ∧
    (s.expires_at < now →
      get_user_id_by_session db token now =
        (none, { db with
          sessions := db.sessions.filter (fun r => decide (¬ r.token = token)) }) ∧
      ∀ later : Nat,
        get_user_id_by_session
          { db with
            sessions := db.sessions.filter (fun r => decide (¬ r.token = token)) }
          token later =
        (none, { db with
          sessions := db.sessions.filter (fun r => decide (¬ r.token = token)) })) := by
  have hgone : ∀ p : List SessionRow,
      (p.filter (fun r => decide (¬ r.token = token))).find?
        (fun r => decide (r.token = token)) = none := by
    intro p
    rw [List.find?_eq_none]
    intro a ha
    have h := (List.mem_filter.mp ha).2
    simp only [decide_eq_true_eq] at h ⊢
    exact h
  constructor
  · intro hle
    unfold get_user_id_by_session
    rw [hfind]
    simp [Nat.not_lt.mpr hle]
  · intro hlt
    constructor
    · unfold get_user_id_by_session
      rw [hfind]
      simp [hlt]
    · intro later
      unfold get_user_id_by_session
      rw [hgone]

/-- A database holding a single session that expires at instant 5. -/
def sessionDB : DB :=
  { users := [], sessions := [⟨"tok", 1, 5⟩], categories := [], companies := [],
    leads := [], uls := [] }

/-- **C5 (counterexample)** — The claim says resolution at `now ≥ expiry`
fails; but at `now = expiry` (here both 5) the code returns the owning user
id and leaves the store unchanged. -/
theorem session_boundary_counterexample :
    sessionDB.sessions = [⟨"tok", 1, 5⟩] ∧
      get_user_id_by_session sessionDB "tok" 5 = (some 1, sessionDB) :=
  ⟨rfl, by decide⟩

/-- Witness for `session_resolution_boundary` at a concrete store: the
session resolves at its expiry instant and fails one instant later. -/
theorem session_resolution_boundary_witness :
    get_user_id_by_session sessionDB "tok" 5 = (some 1, sessionDB) ∧
      (get_user_id_by_session sessionDB "tok" 6).1 = none := by
  constructor
  · have h := (session_resolution_boundary sessionDB "tok" 5 ⟨"tok", 1, 5⟩
      (by decide)).1 (by decide)
    simpa using h
  · have h := (session_resolution_boundary sessionDB "tok" 6 ⟨"tok", 1, 5⟩
      (by decide)).2 (by decide)
    rw [h.1]

/-! ### Preference resolution (claim C8) -/

/-- **C8** — Preference resolution never fails: the decoded category list
keeps exactly the comma-separated tokens that parse as integers (malformed
tokens are silently dropped), and an empty preference list applies no
filter at all to the eligible pool (wildcard), rather than matching
nothing. -/
theorem preference_resolution_total (s : String) (db : DB) (uid : Nat)
    (countries : List String) (catIds : List Int) :
    (∀ t ∈ (splitOnComma s.data).map pstrip, ∀ k : Int,
        pyInt t = some k → k ∈ parseCategories s) ∧
    (∀ k ∈ parseCategories s, ∃ t ∈ (splitOnComma s.data).map pstrip,
        pyInt t = some k) ∧
    eligiblePool db uid [] catIds =
      (leadJoin db).filter (fun r =>
        decide (r.lead.id ∉ assignedLeadIds db uid ∧
          (catIds = [] ∨ (r.category.id : Int) ∈ catIds))) ∧
    eligiblePool db uid countries [] =
      (leadJoin db).filter (fun r =>
        decide (r.lead.id ∉ assignedLeadIds db uid ∧
          (countries = [] ∨ r.lead.country ∈ countries))) := by
  refine ⟨?_, ?_, ?_, ?_⟩
  · intro t ht k hk
    have hne : t ≠ [] := by
      rintro rfl
      simp [pyInt, digitsToNat] at hk
    exact List.mem_filterMap.mpr ⟨t, ht, by rw [if_neg hne]; exact hk⟩
  · intro k hk
    rcases List.mem_filterMap.mp hk with ⟨t, ht, hf⟩
    refine ⟨t, ht, ?_⟩
    by_cases hne : t = []
    · rw [hne] at hf
      simp at hf
    · rwa [if_neg hne] at hf
  · unfold eligiblePool
    refine List.filter_congr ?_
    intro r hr
    simp [decide_eq_decide]
  · unfold eligiblePool
    refine List.filter_congr ?_
    intro r hr
    simp [decide_eq_decide]

/-- A small concrete database: one user preferring United States / category
1, one category, one company, two leads (one US, one Canadian), no
deliveries yet. -/
def sampleDB : DB :=
  { users := [⟨1, "Ann", "ann@example.com", "h", "United States", "1"⟩]
    sessions := []
    categories := [⟨1, "Health"⟩]
    companies := [⟨1, "NutriLife", 1, "ov", "url", "United States"⟩]
    leads := [⟨1, "Alice", "a@e", "p1", "United States", 1⟩,
              ⟨2, "Bob", "b@e", "p2", "Canada", 1⟩]
    uls := [] }

/-- Witness for `preference_resolution_total`: on the stored string
"1, x,2" the malformed token "x" is dropped, the integers survive, and the
theorem applies. -/
theorem preference_resolution_total_witness :
    parseCategories "1, x,2" = [1, 2] ∧
      (∀ k ∈ parseCategories "1, x,2",
        ∃ t ∈ (splitOnComma "1, x,2".data).map pstrip, pyInt t = some k) :=
  ⟨by decide, (preference_resolution_total "1, x,2" sampleDB 1 [] []).2.1⟩

/-- Witness for `preference_filter_sound` on `sampleDB`. -/
theorem preference_filter_sound_witness :
    (deliver_daily_leads id sampleDB 1 "2026-10-12").1 =
        (freshBatch id sampleDB 1).map mkView ∧
      ∀ r ∈ freshBatch id sampleDB 1,
        ((get_user_preferences sampleDB 1).1 ≠ [] →
          r.lead.country ∈ (get_user_preferences sampleDB 1).1) ∧
        ((get_user_preferences sampleDB 1).2 ≠ [] →
          (r.category.id : Int) ∈ (get_user_preferences sampleDB 1).2) :=
  preference_filter_sound id (fun l => List.Perm.refl l) sampleDB 1 "2026-10-12"
    (by decide)

/-- Witness for `batch_size_bounded` on `sampleDB`. -/
theorem batch_size_bounded_witness :
    (deliver_daily_leads id sampleDB 1 "2026-10-12").1.length ≤ 7 ∧
      (deliver_daily_leads id sampleDB 1 "2026-10-12").1.length ≤
        (eligiblePool sampleDB 1 (get_user_preferences sampleDB 1).1
          (get_user_preferences sampleDB 1).2).length ∧
      (eligiblePool sampleDB 1 (get_user_preferences sampleDB 1).1
          (get_user_preferences sampleDB 1).2 = [] →
        (deliver_daily_leads id sampleDB 1 "2026-10-12").1 = [] ∧
          (deliver_daily_leads id sampleDB 1 "2026-10-12").2 = sampleDB) :=
  batch_size_bounded id (fun l => List.Perm.refl l) sampleDB 1 "2026-10-12"
    (by decide)

/-- Witness for `unknown_user_wildcard_delivery`: user id 99 has no row in
`sampleDB`. -/
theorem unknown_user_wildcard_delivery_witness :
    get_user_preferences sampleDB 99 = ([], []) ∧
      eligiblePool sampleDB 99 [] [] =
        (leadJoin sampleDB).filter
          (fun r => decide (r.lead.id ∉ assignedLeadIds sampleDB 99)) ∧
      (deliver_daily_leads id sampleDB 99 "2026-10-12").1 =
        ((id (eligiblePool sampleDB 99 [] [])).take 7).map mkView ∧
      (deliver_daily_leads id sampleDB 99 "2026-10-12").2.uls =
        sampleDB.uls ++
          ((id (eligiblePool sampleDB 99 [] [])).take 7).map (mkRecord 99 "2026-10-12") ∧
      (deliver_daily_leads id sampleDB 99 "2026-10-12").1.length ≤ 7 :=
  unknown_user_wildcard_delivery id (fun l => List.Perm.refl l) sampleDB 99
    "2026-10-12" (by decide) (by decide)

end LeadApp

namespace LeadApp

/-! ### Credential store: base64 and the PBKDF2 round trip (claims C6, C7)

`hashlib.pbkdf2_hmac("sha256", pw, salt, 100_000)` is modelled by an
abstract derivation function `kdf : String → List Nat → List Nat`; the
base64 codec is implemented concretely. -/

/-- The standard base64 alphabet, index to character. -/
def b64Char (i : Nat) : Char :=
  if i < 26 then Char.ofNat (65 + i)
  else if i < 52 then Char.ofNat (71 + i)
  else if i < 62 then Char.ofNat (i - 4)
  else if i = 62 then '+' else '/'

/-- The inverse alphabet: character to sextet value, `none` outside the
alphabet. -/
def b64Val (c : Char) : Option Nat :=
  let n := c.toNat
  if 65 ≤ n ∧ n ≤ 90 then some (n - 65)
  else if 97 ≤ n ∧ n ≤ 122 then some (n - 71)
  else if 48 ≤ n ∧ n ≤ 57 then some (n + 4)
  else if n = 43 then some 62
  else if n = 47 then some 63
  else none

/-- Encode bytes as sextets: three bytes to four sextets, plus the partial
final group `base64.b64encode` emits before padding. -/
def encodeQuads : List Nat → List Nat
  | x :: y :: z :: rest =>
    x / 4 :: ((x % 4) * 16 + y / 16) :: ((y % 16) * 4 + z / 64) :: z % 64 ::
      encodeQuads rest
  | [x, y] => [x / 4, (x % 4) * 16 + y / 16, (y % 16) * 4]
  | [x] => [x / 4, (x % 4) * 16]
  | [] => []

/-- The '=' padding `b64encode` appends. -/
def b64padding : List Nat → List Char
  | _ :: _ :: _ :: rest => b64padding rest
  | [_, _] => ['=']
  | [_] => ['=', '=']
  | [] => []

/-- `base64.b64encode` of a byte list, as a string. -/
def b64encode (bs : List Nat) : String :=
  ⟨(encodeQuads bs).map b64Char ++ b64padding bs⟩

/-- Decode complete sextet groups back to bytes; the final group may be the
truncated one left by '=' padding; a single leftover sextet is invalid. -/
def decodeQuads : List Nat → Option (List Nat)
  | a :: b :: c :: d :: rest =>
    (decodeQuads rest).map fun bs =>
      (a * 4 + b / 16) :: ((b % 16) * 16 + c / 4) :: ((c % 4) * 64 + d) :: bs
  | [] => some []
  | [_] => none
  | [a, b] => some [a * 4 + b / 16]
  | [a, b, c] => some [a * 4 + b / 16, (b % 16) * 16 + c / 4]

/-- Python `base64.b64decode` (default, non-validating) on the shapes this
module meets: characters outside the alphabet are discarded; the kept
characters must form complete groups of four with '=' only as trailing
padding of at most two characters, else `binascii.Error` is raised
(`none`). -/
def b64decode (s : String) : Option (List Nat) :=
  let ds := s.data.filter fun c => (b64Val c).isSome || c == '='
  if ds.length % 4 ≠ 0 then none
  else
    let dataChars := ds.takeWhile fun c => c != '='
    if ds.length - dataChars.length > 2 then none
    else if ¬ ((ds.drop dataChars.length).all fun c => c == '=') then none
    else decodeQuads (dataChars.filterMap b64Val)

/-- `hash_password`: derive a key from the password and a random 16-byte
salt and return `base64(salt ‖ derived_key)`.  The salt (16 bytes of
`os.urandom`) and the PBKDF2 derivation are explicit parameters. -/
def hash_password (kdf : String → List Nat → List Nat) (salt : List Nat)
    (password : String) : String :=
  b64encode (salt ++ kdf password salt)

/-- `verify_password`: base64-decode the stored credential (a decode
failure propagates — the code has no try/except, modelled as `none`),
split off the 16-byte salt, re-derive, and compare the derived key with
`hmac.compare_digest` (equality of byte strings). -/
def verify_password (kdf : String → List Nat → List Nat) (password : String)
    (stored_hash : String) : Option Bool :=
  (b64decode stored_hash).map fun data =>
    decide (data.drop 16 = kdf password (data.take 16))

/-! #### Base64 round-trip lemmas -/

theorem b64Val_b64Char : ∀ i, i < 64 → b64Val (b64Char i) = some i := by decide

theorem b64Char_ne_pad : ∀ i, i < 64 → b64Char i ≠ '=' := by decide

theorem encodeQuads_lt :
    ∀ bs : List Nat, (∀ b ∈ bs, b < 256) → ∀ v ∈ encodeQuads bs, v < 64
  | [], _, v, hv => by simp [encodeQuads] at hv
  | [x], hb, v, hv => by
    have hx := hb x (by simp)
    simp [encodeQuads] at hv
    rcases hv with h | h <;> omega
  | [x, y], hb, v, hv => by
    have hx := hb x (by simp)
    have hy := hb y (by simp)
    simp [encodeQuads] at hv
    rcases hv with h | h | h <;> omega
  | x :: y :: z :: rest, hb, v, hv => by
    have hx := hb x (by simp)
    have hy := hb y (by simp)
    have hz := hb z (by simp)
    simp only [encodeQuads, List.mem_cons] at hv
    rcases hv with h | h | h | h | h
    · omega
    · omega
    · omega
    · omega
    · exact encodeQuads_lt rest (fun b hb' => hb b (by simp [hb'])) v h

theorem b64padding_nil :
    ∀ bs : List Nat, bs.length % 3 = 0 → b64padding bs = []
  | [], _ => rfl
  | [_], h => by simp at h
  | [_, _], h => by simp at h
  | _ :: _ :: _ :: rest, h => by
    have h' : rest.length % 3 = 0 := by
      simp only [List.length_cons] at h
      omega
    simpa [b64padding] using b64padding_nil rest h'

theorem encodeQuads_length :
    ∀ bs : List Nat, bs.length % 3 = 0 → (encodeQuads bs).length % 4 = 0
  | [], _ => rfl
  | [_], h => by simp at h
  | [_, _], h => by simp at h
  | x :: y :: z :: rest, h => by
    have h' : rest.length % 3 = 0 := by
      simp only [List.length_cons] at h
      omega
    have ih := encodeQuads_length rest h'
    simp only [encodeQuads, List.length_cons]
    omega

theorem decode_encodeQuads :
    ∀ bs : List Nat, (∀ b ∈ bs, b < 256) → bs.length % 3 = 0 →
      decodeQuads (encodeQuads bs) = some bs
  | [], _, _ => rfl
  | [_], _, h => by simp at h
  | [_, _], _, h => by simp at h
  | x :: y :: z :: rest, hb, h => by
    have h' : rest.length % 3 = 0 := by
      simp only [List.length_cons] at h
      omega
    have ih := decode_encodeQuads rest (fun b hb' => hb b (by simp [hb'])) h'
    have hx := hb x (by simp)
    have hy := hb y (by simp)
    have hz := hb z (by simp)
    simp only [encodeQuads, decodeQuads, ih, Option.map_some']
    have e1 : x / 4 * 4 + ((x % 4) * 16 + y / 16) / 16 = x := by omega
    have e2 : ((x % 4) * 16 + y / 16) % 16 * 16 + ((y % 16) * 4 + z / 64) / 4 = y := by
      omega
    have e3 : ((y % 16) * 4 + z / 64) % 4 * 64 + z % 64 = z := by omega
    rw [e1, e2, e3]

theorem takeWhile_eq_self_of {p : Char → Bool} :
    ∀ l : List Char, (∀ c ∈ l, p c = true) → l.takeWhile p = l
  | [], _ => rfl
  | c :: cs, h => by
    have hc := h c (by simp)
    simp only [List.takeWhile_cons, hc, if_true]
    rw [takeWhile_eq_self_of cs (fun d hd => h d (by simp [hd]))]

theorem filterMap_id_of {α : Type} (f : α → Option α) :
    ∀ l : List α, (∀ a ∈ l, f a = some a) → l.filterMap f = l
  | [], _ => rfl
  | a :: as, h => by
    rw [List.filterMap_cons, h a (by simp),
      filterMap_id_of f as (fun b hb => h b (by simp [hb]))]

/-- Base64 round trip for byte lists whose length is a multiple of three
(no padding), which covers the 48-byte salt ‖ key payload. -/
theorem b64decode_encode (bs : List Nat) (hb : ∀ b ∈ bs, b < 256)
    (h3 : bs.length % 3 = 0) : b64decode (b64encode bs) = some bs := by
  have hpad := b64padding_nil bs h3
  have hchars : ∀ c ∈ (encodeQuads bs).map b64Char,
      ((b64Val c).isSome || c == '=') = true := by
    intro c hc
    rcases List.mem_map.mp hc with ⟨v, hv, rfl⟩
    have hlt := encodeQuads_lt bs hb v hv
    rw [b64Val_b64Char v hlt]
    simp
  have hne : ∀ c ∈ (encodeQuads bs).map b64Char, (c != '=') = true := by
    intro c hc
    rcases List.mem_map.mp hc with ⟨v, hv, rfl⟩
    have hlt := encodeQuads_lt bs hb v hv
    simpa using b64Char_ne_pad v hlt
  unfold b64decode b64encode
  rw [hpad, List.append_nil]
  rw [List.filter_eq_self.mpr hchars]
  have hlen : ((encodeQuads bs).map b64Char).length % 4 = 0 := by
    rw [List.length_map]
    exact encodeQuads_length bs h3
  rw [if_neg (by omega)]
  rw [takeWhile_eq_self_of _ hne]
  rw [if_neg (by omega)]
  rw [List.drop_length]
  simp only [List.all_nil, not_true_eq_false, if_neg, ite_false]
  rw [List.filterMap_map]
  rw [filterMap_id_of (b64Val ∘ b64Char) _
    (fun v hv => b64Val_b64Char v (encodeQuads_lt bs hb v hv))]
  exact decode_encodeQuads bs hb h3

/-- **C6** — Password round trip: with a 16-byte salt, verifying a password
against its own hash succeeds, and verifying against the hash of a password
whose derived key differs (the claim's "the derived keys differ") fails.
The derivation is abstract; only its output length (32 bytes, SHA-256) and
byte range are assumed. -/
theorem password_roundtrip (kdf : String → List Nat → List Nat)
    (salt : List Nat) (p q : String)
    (hlen : salt.length = 16) (hsb : ∀ b ∈ salt, b < 256)
    (hklen : ∀ pw s, (kdf pw s).length = 32)
    (hkb : ∀ pw s, ∀ b ∈ kdf pw s, b < 256)
    (hdiff : kdf p salt ≠ kdf q salt) :
    verify_password kdf p (hash_password kdf salt p) = some true ∧
      verify_password kdf p (hash_password kdf salt q) = some false := by
  have hdec : ∀ pw, b64decode (hash_password kdf salt pw) =
      some (salt ++ kdf pw salt) := by
    intro pw
    apply b64decode_encode
    · intro b hb
      rcases List.mem_append.mp hb with h | h
      · exact hsb b h
      · exact hkb pw salt b h
    · simp [List.length_append, hlen, hklen]
  have hsplit : ∀ pw, (salt ++ kdf pw salt).drop 16 = kdf pw salt ∧
      (salt ++ kdf pw salt).take 16 = salt := by
    intro pw
    constructor
    · rw [← hlen]
      exact List.drop_left _ _
    · rw [← hlen]
      exact List.take_left _ _
  constructor
  · unfold verify_password
    rw [hdec p, Option.map_some', (hsplit p).1, (hsplit p).2]
    simp
  · unfold verify_password
    rw [hdec q, Option.map_some', (hsplit q).1, (hsplit q).2]
    rw [decide_eq_false (Ne.symm hdiff)]

/-- A concrete stand-in derivation used only to instantiate the abstract
`kdf` in witnesses: 32 bytes ending in a length fingerprint. -/
def kdfSample (pw : String) (salt : List Nat) : List Nat :=
  List.replicate 31 0 ++ [(pw.length + salt.length) % 256]

theorem kdfSample_length : ∀ pw s, (kdfSample pw s).length = 32 := by
  intro pw s
  simp [kdfSample]

theorem kdfSample_lt : ∀ pw s, ∀ b ∈ kdfSample pw s, b < 256 := by
  intro pw s b hb
  rcases List.mem_append.mp hb with h | h
  · rw [List.eq_of_mem_replicate h]
    omega
  · simp at h
    omega

/-- A fixed 16-byte salt for witnesses. -/
def saltSample : List Nat := List.replicate 16 0

/-- Witness for `password_roundtrip` at a concrete derivation and salt. -/
theorem password_roundtrip_witness :
    verify_password kdfSample "a" (hash_password kdfSample saltSample "a") =
        some true ∧
      verify_password kdfSample "a" (hash_password kdfSample saltSample "ab") =
        some false :=
  password_roundtrip kdfSample saltSample "a" "ab" (by decide)
    (fun b hb => by rw [List.eq_of_mem_replicate hb]; omega)
    kdfSample_length kdfSample_lt (by decide)

/-- **C7 (counterexample)** — The claim says every malformed credential
string makes `verify_password` return false; but `base64.b64decode` raises
`binascii.Error` on "abc" (three data characters cannot form a group), and
`verify_password` has no handler, so the call raises instead of returning
false. -/
theorem verify_malformed_raises :
    b64decode "abc" = none ∧ verify_password kdfSample "p" "abc" = none :=
  ⟨by decide, by decide⟩

/-- **C7 (amended)** — A credential string whose base64 decoding fails makes
`verify_password` propagate the error; a decodable credential whose payload
is not the 48-byte salt ‖ key shape yields `false` (verification failure,
not an error). -/
theorem verify_malformed_behavior (kdf : String → List Nat → List Nat)
    (hklen : ∀ pw s, (kdf pw s).length = 32) (p s : String) :
    (b64decode s = none → verify_password kdf p s = none) ∧
      (∀ data, b64decode s = some data → data.length ≠ 48 →
        verify_password kdf p s = some false) := by
  constructor
  · intro h
    unfold verify_password
    rw [h, Option.map_none']
  · intro data h hne
    unfold verify_password
    rw [h, Option.map_some']
    have hd : data.drop 16 ≠ kdf p (data.take 16) := by
      intro he
      have h1 := congrArg List.length he
      rw [List.length_drop, hklen] at h1
      omega
    rw [decide_eq_false hd]

/-- Witness for `verify_malformed_behavior`: "AA==" decodes to the single
byte 0, which is not a 48-byte payload, so verification returns false. -/
theorem verify_malformed_behavior_witness :
    b64decode "AA==" = some [0] ∧
      verify_password kdfSample "p" "AA==" = some false := by
  refine ⟨by decide, ?_⟩
  exact (verify_malformed_behavior kdfSample kdfSample_length "p" "AA==").2 [0]
    (by decide) (by decide)

end LeadApp

namespace LeadApp

/-! ### Two same-day calls (claims C1, C9) -/

/-- When today's deliveries already exist, `deliver_daily_leads` just
returns them and leaves the database untouched. -/
theorem deliver_cached (shuffle : List JoinRow → List JoinRow) {db : DB}
    {uid : Nat} {today : String} (h : todaysDelivered db uid today ≠ []) :
    deliver_daily_leads shuffle db uid today = (todaysDelivered db uid today, db) := by
  unfold deliver_daily_leads
  have hf : (todaysDelivered db uid today).isEmpty = false := by
    simpa [List.isEmpty_iff] using h
  simp [hf]

/-- `recView` only reads the lead / company / category tables, so changing
the ledger does not affect it. -/
theorem recView_congr_uls (db : DB) (new : List UserLeadStatusRow) :
    recView { db with uls := new } = recView db := rfl

/-- Re-querying today's deliveries after inserting a batch of fresh records
returns exactly the joins of the inserted records. -/
theorem todaysDelivered_insert (db : DB) (uid : Nat) (today : String)
    (sel : List JoinRow) (h0 : todaysDelivered db uid today = []) :
    todaysDelivered { db with uls := db.uls ++ sel.map (mkRecord uid today) } uid today
      = (sel.map (mkRecord uid today)).flatMap (recView db) := by
  have hfil : (sel.map (mkRecord uid today)).filter
      (fun r => decide (r.user_id = uid ∧ r.delivery_date = today))
      = sel.map (mkRecord uid today) := by
    rw [List.filter_eq_self]
    intro r hr
    rcases List.mem_map.mp hr with ⟨t, ht, rfl⟩
    simp [mkRecord]
  unfold todaysDelivered at h0 ⊢
  rw [recView_congr_uls]
  rw [show ({ db with uls := db.uls ++ sel.map (mkRecord uid today) } : DB).uls
      = db.uls ++ sel.map (mkRecord uid today) from rfl]
  rw [List.filter_append, List.flatMap_append, h0, List.nil_append, hfil]

/-- Every view joined from an ownership record carries that record's lead
id. -/
theorem recView_lead_id {db : DB} {r : UserLeadStatusRow} {v : LeadView}
    (hv : v ∈ recView db r) : v.lead_id = r.lead_id := by
  unfold recView at hv
  rcases List.mem_map.mp hv with ⟨t, ht, rfl⟩
  rcases List.mem_flatMap.mp ht with ⟨l, hl, htl⟩
  have hlid : l.id = r.lead_id := by
    have h := (List.mem_filter.mp hl).2
    simpa using h
  rcases mem_joinLead.mp htl with ⟨hrl, -⟩
  show t.lead.id = r.lead_id
  rw [hrl, hlid]

/-- The record inserted for a joined row re-joins to (at least) the view of
that row. -/
theorem mkView_mem_recView {db : DB} {t : JoinRow} (ht : t ∈ leadJoin db)
    (uid : Nat) (today : String) :
    mkView t ∈ recView db (mkRecord uid today t) := by
  rcases mem_leadJoin.mp ht with ⟨hl, hco, hcoid, hcat, hcatid⟩
  unfold recView
  refine List.mem_map_of_mem _ (List.mem_flatMap.mpr ⟨t.lead, ?_, ?_⟩)
  · exact List.mem_filter.mpr ⟨hl, by simp [mkRecord]⟩
  · exact mem_joinLead.mpr ⟨rfl, hco, hcoid, hcat, hcatid⟩

/-- The lead ids visible after re-joining an inserted batch are exactly the
ids of the selected joined rows. -/
theorem insert_ids (db : DB) (uid : Nat) (today : String) (sel : List JoinRow)
    (hsub : ∀ t ∈ sel, t ∈ leadJoin db) (i : Nat) :
    i ∈ (((sel.map (mkRecord uid today)).flatMap (recView db)).map (·.lead_id)) ↔
      ∃ t ∈ sel, t.lead.id = i := by
  constructor
  · intro hi
    rcases List.mem_map.mp hi with ⟨v, hv, rfl⟩
    rcases List.mem_flatMap.mp hv with ⟨r, hr, hvr⟩
    rcases List.mem_map.mp hr with ⟨t, ht, rfl⟩
    refine ⟨t, ht, ?_⟩
    rw [recView_lead_id hvr]
    rfl
  · rintro ⟨t, ht, rfl⟩
    refine List.mem_map.mpr ⟨mkView t, ?_, rfl⟩
    exact List.mem_flatMap.mpr
      ⟨mkRecord uid today t, List.mem_map_of_mem _ ht,
        mkView_mem_recView (hsub t ht) uid today⟩

/-- Core of claims C1 and C9: two consecutive same-day calls (the
single-threaded `HTTPServer` serializes concurrent requests) — the second
call leaves the database unchanged and returns the same set of lead ids as
the first. -/
theorem two_calls_same_day (s1 s2 : List JoinRow → List JoinRow)
    (hs1 : ∀ l, (s1 l).Perm l) (hs2 : ∀ l, (s2 l).Perm l)
    (db : DB) (uid : Nat) (today : String) :
    (deliver_daily_leads s2 (deliver_daily_leads s1 db uid today).2 uid today).2 =
        (deliver_daily_leads s1 db uid today).2 ∧
      ∀ i : Nat,
        i ∈ (deliver_daily_leads s2 (deliver_daily_leads s1 db uid today).2 uid
              today).1.map (·.lead_id) ↔
          i ∈ (deliver_daily_leads s1 db uid today).1.map (·.lead_id) := by
  by_cases h0 : todaysDelivered db uid today = []
  · by_cases hsel : freshBatch s1 db uid = []
    · have hdb1 : (deliver_daily_leads s1 db uid today).2 = db := by
        rw [deliver_snd h0, hsel]
        simp
      have hpool : eligiblePool db uid (get_user_preferences db uid).1
          (get_user_preferences db uid).2 = [] := by
        unfold freshBatch at hsel
        rcases List.take_eq_nil_iff.mp hsel with h | h
        · exact absurd h (by decide)
        · have hp := hs1 (eligiblePool db uid (get_user_preferences db uid).1
            (get_user_preferences db uid).2)
          rw [h] at hp
          exact hp.symm.eq_nil
      have hsel2 : freshBatch s2 db uid = [] := by
        unfold freshBatch
        rw [hpool, (hs2 []).eq_nil]
        rfl
      constructor
      · rw [hdb1, deliver_snd h0, hsel2]
        simp
      · intro i
        rw [hdb1, deliver_fst h0, hsel2, deliver_fst h0, hsel]
    · have hids1 : ∀ i : Nat,
          i ∈ (deliver_daily_leads s1 db uid today).1.map (·.lead_id) ↔
            ∃ t ∈ freshBatch s1 db uid, t.lead.id = i := by
        intro i
        rw [deliver_fst h0]
        constructor
        · intro hi
          rcases List.mem_map.mp hi with ⟨v, hv, rfl⟩
          rcases List.mem_map.mp hv with ⟨t, ht, rfl⟩
          exact ⟨t, ht, rfl⟩
        · rintro ⟨t, ht, rfl⟩
          exact List.mem_map.mpr ⟨mkView t, List.mem_map_of_mem _ ht, rfl⟩
      have hsub : ∀ t ∈ freshBatch s1 db uid, t ∈ leadJoin db :=
        fun t ht => (mem_eligiblePool.mp (mem_freshBatch hs1 ht)).1
      have hids2 : ∀ i : Nat,
          i ∈ (todaysDelivered (deliver_daily_leads s1 db uid today).2 uid
              today).map (·.lead_id) ↔
            ∃ t ∈ freshBatch s1 db uid, t.lead.id = i := by
        intro i
        rw [deliver_snd h0, todaysDelivered_insert db uid today _ h0]
        exact insert_ids db uid today _ hsub i
      have hne : todaysDelivered (deliver_daily_leads s1 db uid today).2 uid
          today ≠ [] := by
        rw [deliver_snd h0, todaysDelivered_insert db uid today _ h0]
        obtain ⟨t, rest, ht⟩ := List.exists_cons_of_ne_nil hsel
        have htmem : t ∈ freshBatch s1 db uid := by
          rw [ht]
          exact List.mem_cons_self t rest
        intro hcon
        have hmem : mkView t ∈
            ((freshBatch s1 db uid).map (mkRecord uid today)).flatMap (recView db) :=
          List.mem_flatMap.mpr ⟨mkRecord uid today t, List.mem_map_of_mem _ htmem,
            mkView_mem_recView (hsub t htmem) uid today⟩
        rw [hcon] at hmem
        exact absurd hmem (List.not_mem_nil _)
      have hD2 := deliver_cached s2 hne
      constructor
      · rw [hD2]
      · intro i
        rw [hD2]
        exact (hids2 i).trans (hids1 i).symm
  · have e1 := deliver_cached s1 h0
    have hdb1 : (deliver_daily_leads s1 db uid today).2 = db := by
      rw [e1]
    have e2 := deliver_cached s2 h0
    constructor
    · rw [hdb1, e2]
    · intro i
      rw [hdb1, e2, e1]

/-- **C1** — Idempotence per user per day: after any first call, a second
call on the resulting database (with its own, possibly different, random
order) inserts no ownership records (the database is unchanged) and returns
the same set of lead ids. -/
theorem deliver_daily_idempotent (s1 s2 : List JoinRow → List JoinRow)
    (hs1 : ∀ l, (s1 l).Perm l) (hs2 : ∀ l, (s2 l).Perm l)
    (db : DB) (uid : Nat) (today : String) :
    (deliver_daily_leads s2 (deliver_daily_leads s1 db uid today).2 uid today).2 =
        (deliver_daily_leads s1 db uid today).2 ∧
      ∀ i : Nat,
        i ∈ (deliver_daily_leads s2 (deliver_daily_leads s1 db uid today).2 uid
              today).1.map (·.lead_id) ↔
          i ∈ (deliver_daily_leads s1 db uid today).1.map (·.lead_id) :=
  two_calls_same_day s1 s2 hs1 hs2 db uid today

/-- Witness for `deliver_daily_idempotent` on `sampleDB`. -/
theorem deliver_daily_idempotent_witness :
    (deliver_daily_leads id (deliver_daily_leads id sampleDB 1 "2026-10-12").2 1
        "2026-10-12").2 =
      (deliver_daily_leads id sampleDB 1 "2026-10-12").2 :=
  (deliver_daily_idempotent id id (fun l => List.Perm.refl l)
    (fun l => List.Perm.refl l) sampleDB 1 "2026-10-12").1

/-- **C9** — Two first-of-day calls for the same user and date, serialized
as the single-threaded server executes them: only the first inserts (the
second leaves the database unchanged), at most 7 ownership records are
added in total, and the second call's view has the same lead-id set as the
first call's result. -/
theorem concurrent_first_of_day_serialized (s1 s2 : List JoinRow → List JoinRow)
    (hs1 : ∀ l, (s1 l).Perm l) (hs2 : ∀ l, (s2 l).Perm l)
    (db : DB) (uid : Nat) (today : String)
    (h0 : todaysDelivered db uid today = []) :
    (deliver_daily_leads s2 (deliver_daily_leads s1 db uid today).2 uid today).2 =
        (deliver_daily_leads s1 db uid today).2 ∧
      (deliver_daily_leads s1 db uid today).2.uls.length ≤ db.uls.length + 7 ∧
      ∀ i : Nat,
        i ∈ (deliver_daily_leads s2 (deliver_daily_leads s1 db uid today).2 uid
              today).1.map (·.lead_id) ↔
          i ∈ (deliver_daily_leads s1 db uid today).1.map (·.lead_id) := by
  refine ⟨(two_calls_same_day s1 s2 hs1 hs2 db uid today).1, ?_,
    (two_calls_same_day s1 s2 hs1 hs2 db uid today).2⟩
  rw [deliver_snd h0]
  simp only [List.length_append, List.length_map]
  have h7 : (freshBatch s1 db uid).length ≤ 7 := by
    unfold freshBatch
    exact List.length_take_le 7 _
  omega

/-- Witness for `concurrent_first_of_day_serialized` on `sampleDB`. -/
theorem concurrent_first_of_day_serialized_witness :
    (deliver_daily_leads id (deliver_daily_leads id sampleDB 1 "2026-10-12").2 1
        "2026-10-12").2 =
      (deliver_daily_leads id sampleDB 1 "2026-10-12").2 ∧
    (deliver_daily_leads id sampleDB 1 "2026-10-12").2.uls.length ≤
      sampleDB.uls.length + 7 := by
  have h := concurrent_first_of_day_serialized id id (fun l => List.Perm.refl l)
    (fun l => List.Perm.refl l) sampleDB 1 "2026-10-12" (by decide)
  exact ⟨h.1, h.2.1⟩

end LeadApp

namespace LeadApp

/-! ### Ledger invariant (claim C2) -/

theorem length_filter_key_le_one {α : Type} (f : α → Nat) (a : Nat) :
    ∀ l : List α, (l.map f).Nodup →
      (l.filter fun x => decide (f x = a)).length ≤ 1
  | [], _ => by simp
  | x :: xs, h => by
    rw [List.map_cons, List.nodup_cons] at h
    by_cases hx : f x = a
    · have hnil : xs.filter (fun x => decide (f x = a)) = [] := by
        rw [List.filter_eq_nil_iff]
        intro b hb
        simp only [decide_eq_true_eq]
        intro hfb
        have hmem : f x ∈ xs.map f := by
          rw [hx, ← hfb]
          exact List.mem_map_of_mem f hb
        exact h.1 hmem
      simp [List.filter_cons, hx, hnil]
    · rw [List.filter_cons_of_neg (by simp [hx])]
      exact length_filter_key_le_one f a xs h.2

theorem nodup_of_length_le_one {α : Type} : ∀ {l : List α}, l.length ≤ 1 → l.Nodup
  | [], _ => List.nodup_nil
  | [_], _ => by simp
  | _ :: _ :: _, h => by
    simp only [List.length_cons] at h
    omega

/-- With unique company and category ids, a single lead joins to at most
one row. -/
theorem joinLead_length_le_one (cos : List CompanyRow) (cats : List CategoryRow)
    (l : LeadRow) (hco : (cos.map (·.id)).Nodup)
    (hcat : (cats.map (·.id)).Nodup) : (joinLead cos cats l).length ≤ 1 := by
  have h1 := length_filter_key_le_one (·.id) l.company_id cos hco
  unfold joinLead
  cases hfp : cos.filter (fun co => decide (co.id = l.company_id)) with
  | nil => simp
  | cons co tail =>
    rw [hfp] at h1
    have htail : tail = [] := by
      simp only [List.length_cons] at h1
      exact List.eq_nil_of_length_eq_zero (by omega)
    subst htail
    simp only [List.flatMap_cons, List.flatMap_nil, List.append_nil,
      List.length_map]
    exact length_filter_key_le_one (·.id) co.category_id cats hcat

theorem lead_of_mem_joinList {cos : List CompanyRow} {cats : List CategoryRow}
    {leads : List LeadRow} {t : JoinRow}
    (ht : t ∈ leads.flatMap (joinLead cos cats)) : t.lead ∈ leads := by
  rcases List.mem_flatMap.mp ht with ⟨l, hl, htl⟩
  rw [(mem_joinLead.mp htl).1]
  exact hl

/-- With unique primary keys all around, the joined relation mentions every
lead id at most once. -/
theorem joinList_ids_nodup (cos : List CompanyRow) (cats : List CategoryRow)
    (hco : (cos.map (·.id)).Nodup) (hcat : (cats.map (·.id)).Nodup) :
    ∀ leads : List LeadRow, (leads.map (·.id)).Nodup →
      ((leads.flatMap (joinLead cos cats)).map (·.lead.id)).Nodup
  | [], _ => by simp
  | l :: ls, h => by
    rw [List.map_cons, List.nodup_cons] at h
    rw [List.flatMap_cons, List.map_append, List.nodup_append]
    refine ⟨?_, joinList_ids_nodup cos cats hco hcat ls h.2, ?_⟩
    · exact nodup_of_length_le_one (by
        rw [List.length_map]
        exact joinLead_length_le_one cos cats l hco hcat)
    · intro a ha hb
      rcases List.mem_map.mp ha with ⟨t, ht, rfl⟩
      have hta : t.lead = l := (mem_joinLead.mp ht).1
      rcases List.mem_map.mp hb with ⟨t2, ht2, he⟩
      have ht2l : t2.lead ∈ ls := lead_of_mem_joinList ht2
      apply h.1
      have hmem : t.lead.id ∈ ls.map (·.id) := by
        rw [← he]
        exact List.mem_map_of_mem _ ht2l
      rwa [hta] at hmem

theorem pool_ids_nodup (db : DB) (uid : Nat) (countries : List String)
    (catIds : List Int) (hwf : db.WF) :
    ((eligiblePool db uid countries catIds).map (·.lead.id)).Nodup := by
  have h := joinList_ids_nodup db.companies db.categories hwf.2.1 hwf.2.2
    db.leads hwf.1
  have hsub : List.Sublist (eligiblePool db uid countries catIds) (leadJoin db) := by
    unfold eligiblePool
    exact List.filter_sublist _
  exact List.Nodup.sublist (hsub.map _) h

theorem freshBatch_ids_nodup (shuffle : List JoinRow → List JoinRow)
    (hs : ∀ l, (shuffle l).Perm l) (db : DB) (uid : Nat) (hwf : db.WF) :
    ((freshBatch shuffle db uid).map (·.lead.id)).Nodup := by
  have hpool := pool_ids_nodup db uid (get_user_preferences db uid).1
    (get_user_preferences db uid).2 hwf
  have hperm := (hs (eligiblePool db uid (get_user_preferences db uid).1
    (get_user_preferences db uid).2)).map (·.lead.id)
  have hshuf := hperm.nodup_iff.mpr hpool
  unfold freshBatch
  exact List.Nodup.sublist ((List.take_sublist 7 _).map _) hshuf

/-- Field-preserving row rewrites keep the ledger invariant and the
(user, lead, delivery date) triples. -/
theorem inv_map_preserve (db : DB) (g : UserLeadStatusRow → UserLeadStatusRow)
    (hkey : ∀ r, (g r).user_id = r.user_id ∧ (g r).lead_id = r.lead_id ∧
      (g r).delivery_date = r.delivery_date)
    (hinv : LedgerInv db) :
    LedgerInv { db with uls := db.uls.map g } ∧
      (db.uls.map g).map (fun r => (r.user_id, r.lead_id, r.delivery_date)) =
        db.uls.map (fun r => (r.user_id, r.lead_id, r.delivery_date)) := by
  constructor
  · unfold LedgerInv at hinv ⊢
    rw [show ({ db with uls := db.uls.map g } : DB).uls = db.uls.map g from rfl]
    rw [List.pairwise_map]
    refine hinv.imp ?_
    intro a b hab
    rw [(hkey a).1, (hkey b).1, (hkey a).2.1, (hkey b).2.1]
    exact hab
  · rw [List.map_map]
    apply List.map_congr_left
    intro a ha
    simp only [Function.comp_apply, (hkey a).1, (hkey a).2.1, (hkey a).2.2]

end LeadApp

namespace LeadApp

/-- **C2** — Ledger invariant preserved by every operation:
`deliver_daily_leads` only appends records whose lead ids are fresh for the
user (so per user all ownership lead ids stay pairwise distinct and old
records — including their delivery dates — are untouched), while
`update_lead_status` and `append_note` rewrite only `status`,
`next_action_date` and `notes`, never the (user id, lead id, delivery date)
identity of any record. -/
theorem ledger_invariant_preserved (shuffle : List JoinRow → List JoinRow)
    (hs : ∀ l, (shuffle l).Perm l) (db : DB) (uid u2 l2 u3 l3 : Nat)
    (today st content ts : String) (nad : Option String)
    (hwf : db.WF) (hinv : LedgerInv db) :
    LedgerInv (deliver_daily_leads shuffle db uid today).2 ∧
      (∃ new, (deliver_daily_leads shuffle db uid today).2.uls = db.uls ++ new) ∧
      LedgerInv (update_lead_status db u2 l2 st nad).1 ∧
      ((update_lead_status db u2 l2 st nad).1.uls.map
          (fun r => (r.user_id, r.lead_id, r.delivery_date)) =
        db.uls.map (fun r => (r.user_id, r.lead_id, r.delivery_date))) ∧
      LedgerInv (append_note db u3 l3 content ts).1 ∧
      ((append_note db u3 l3 content ts).1.uls.map
          (fun r => (r.user_id, r.lead_id, r.delivery_date)) =
        db.uls.map (fun r => (r.user_id, r.lead_id, r.delivery_date))) := by
  have hdeliver : LedgerInv (deliver_daily_leads shuffle db uid today).2 ∧
      ∃ new, (deliver_daily_leads shuffle db uid today).2.uls = db.uls ++ new := by
    by_cases h0 : todaysDelivered db uid today = []
    · constructor
      · rw [deliver_snd h0]
        unfold LedgerInv
        rw [show ({ db with uls := db.uls ++
            (freshBatch shuffle db uid).map (mkRecord uid today) } : DB).uls =
          db.uls ++ (freshBatch shuffle db uid).map (mkRecord uid today) from rfl]
        rw [List.pairwise_append]
        refine ⟨hinv, ?_, ?_⟩
        · rw [List.pairwise_map]
          have hnodup := freshBatch_ids_nodup shuffle hs db uid hwf
          have hpw := List.pairwise_map.mp hnodup
          refine hpw.imp ?_
          intro a b hne _
          exact hne
        · intro a ha b hb hab
          rcases List.mem_map.mp hb with ⟨t, ht, rfl⟩
          have hnot : t.lead.id ∉ assignedLeadIds db uid :=
            (mem_eligiblePool.mp (mem_freshBatch hs ht)).2.1
          intro he
          apply hnot
          have hamem : a.lead_id ∈ assignedLeadIds db uid :=
            List.mem_map.mpr ⟨a,
              List.mem_filter.mpr ⟨ha, by simpa [mkRecord] using hab⟩, rfl⟩
          rwa [he] at hamem
      · exact ⟨_, by rw [deliver_snd h0]⟩
    · rw [deliver_cached shuffle h0]
      exact ⟨hinv, [], by simp⟩
  have hupdate : LedgerInv (update_lead_status db u2 l2 st nad).1 ∧
      ((update_lead_status db u2 l2 st nad).1.uls.map
          (fun r => (r.user_id, r.lead_id, r.delivery_date)) =
        db.uls.map (fun r => (r.user_id, r.lead_id, r.delivery_date))) := by
    by_cases hc : (db.uls.filter fun r =>
        decide (r.user_id = u2 ∧ r.lead_id = l2)).isEmpty = true
    · have he : update_lead_status db u2 l2 st nad = (db, false) := by
        unfold update_lead_status
        rw [if_pos hc]
      rw [he]
      exact ⟨hinv, rfl⟩
    · have he : update_lead_status db u2 l2 st nad =
          ({ db with uls := db.uls.map fun r =>
            if r.user_id = u2 ∧ r.lead_id = l2 then
              { r with status := some st, next_action_date := nad }
            else r }, true) := by
        unfold update_lead_status
        rw [if_neg hc]
      rw [he]
      refine inv_map_preserve db _ (fun r => ?_) hinv
      by_cases h : r.user_id = u2 ∧ r.lead_id = l2
      · simp [h]
      · simp [h]
  have happend : LedgerInv (append_note db u3 l3 content ts).1 ∧
      ((append_note db u3 l3 content ts).1.uls.map
          (fun r => (r.user_id, r.lead_id, r.delivery_date)) =
        db.uls.map (fun r => (r.user_id, r.lead_id, r.delivery_date))) := by
    cases hfind : db.uls.find? fun r =>
        decide (r.user_id = u3 ∧ r.lead_id = l3) with
    | none =>
      have he : append_note db u3 l3 content ts = (db, false) := by
        unfold append_note
        rw [hfind]
      rw [he]
      exact ⟨hinv, rfl⟩
    | some row =>
      have he : append_note db u3 l3 content ts =
          ({ db with uls := db.uls.map fun r =>
            if r.user_id = u3 ∧ r.lead_id = l3 then
              { r with notes := some (appendedNotes row.notes ts content) }
            else r }, true) := by
        unfold append_note
        rw [hfind]
      rw [he]
      refine inv_map_preserve db _ (fun r => ?_) hinv
      by_cases h : r.user_id = u3 ∧ r.lead_id = l3
      · simp [h]
      · simp [h]
  exact ⟨hdeliver.1, hdeliver.2, hupdate.1, hupdate.2, happend.1, happend.2⟩

/-- Witness for `ledger_invariant_preserved` on `sampleDB`. -/
theorem ledger_invariant_preserved_witness :
    LedgerInv (deliver_daily_leads id sampleDB 1 "2026-10-12").2 ∧
      (∃ new, (deliver_daily_leads id sampleDB 1 "2026-10-12").2.uls =
        sampleDB.uls ++ new) ∧
      LedgerInv (update_lead_status sampleDB 1 1 "maybe" none).1 ∧
      ((update_lead_status sampleDB 1 1 "maybe" none).1.uls.map
          (fun r => (r.user_id, r.lead_id, r.delivery_date)) =
        sampleDB.uls.map (fun r => (r.user_id, r.lead_id, r.delivery_date))) ∧
      LedgerInv (append_note sampleDB 1 1 "called" "T0").1 ∧
      ((append_note sampleDB 1 1 "called" "T0").1.uls.map
          (fun r => (r.user_id, r.lead_id, r.delivery_date)) =
        sampleDB.uls.map (fun r => (r.user_id, r.lead_id, r.delivery_date))) :=
  ledger_invariant_preserved id (fun l => List.Perm.refl l) sampleDB 1 1 1 1 1
    "2026-10-12" "maybe" "called" "T0" none (by decide) (by decide)

end LeadApp
